import Mathlib

/-!
Verification development for the paraler process-orchestration engine.

Shallow embedding of the Go sources:
  internal/process (Process lifecycle, Manager, port-conflict detection),
  internal/log (Buffer),
  internal/config (ServiceID, Service).

Modelling conventions:
  - Go machine integers are modelled as Int (ports, exit codes, counters,
    buffer capacities); lengths are Nat with explicit casts.
  - Time is an abstract Nat tick passed explicitly where the code reads
    the clock.
  - OS effects (os.Stat on the working directory, cmd.Start success) are
    explicit Bool parameters; the channel send with drop-on-full policy
    has no effect on the modelled state and is elided.
  - Go map iteration order is unspecified; every map is modelled as a
    list whose order stands for one possible iteration order, and
    theorems quantify over that list where the property must hold for
    every order.
-/

/-- Status mirrors the Status enum of internal/process (StatusStopped,
StatusStarting, StatusRunning, StatusStopping, StatusFailed). -/
inductive Status where
  | stopped
  | starting
  | running
  | stopping
  | failed
deriving DecidableEq, Repr

/-- HealthStatus mirrors HealthUnknown / HealthHealthy / HealthUnhealthy. -/
inductive HealthStatus where
  | unknown
  | healthy
  | unhealthy
deriving DecidableEq, Repr

/-- config.ServiceID: composite (project, service) identity. -/
structure ServiceID where
  project : String
  service : String
deriving DecidableEq, Repr

/-- ServiceID.String(): project + "/" + service, used as registry map key. -/
def ServiceID.key (s : ServiceID) : String :=
  s.project ++ "/" ++ s.service

/-- config.Service: the declarative per-service spec. -/
structure Service where
  cmd : String
  cwd : String
  port : Int
  health : String
  env : List String
  autoRestart : Bool
  delay : Int
  dependsOn : List String
  color : String
deriving DecidableEq, Repr

/-- A Service with every field defaulted, for concrete test inputs. -/
def Service.base : Service :=
  { cmd := "", cwd := "", port := 0, health := "", env := [],
    autoRestart := false, delay := 0, dependsOn := [], color := "" }

/-- process.Process mutable state (the cmd pointer and cancel token carry
no further observable state and are elided; exitErr is modelled as
Option (Option Int): none = cmd.Wait returned nil, some (some c) = an
ExitError with exit code c, some none = a non-ExitError error). -/
structure Process where
  id : ServiceID
  config : Service
  cwd : String
  status : Status
  health : HealthStatus
  exitCode : Int
  exitErr : Option (Option Int)
  startedAt : Nat
  stoppedAt : Nat
  restartCount : Int
deriving DecidableEq, Repr

/-- NewProcess: fresh supervisor in StatusStopped with zeroed state. -/
def Process.new (id : ServiceID) (cfg : Service) (cwd : String) : Process :=
  { id := id, config := cfg, cwd := cwd, status := Status.stopped,
    health := HealthStatus.unknown, exitCode := 0, exitErr := none,
    startedAt := 0, stoppedAt := 0, restartCount := 0 }

/-- Errors Process.Start can return. The two pipe-creation failure points
and the cmd.Start failure all set StatusFailed and return an error; they
are collapsed into the single spawnOk flag. -/
inductive StartErr where
  | alreadyRunning
  | noWorkdir
  | spawnFailed
deriving DecidableEq, Repr

/-- Process.Start: rejects Starting/Running with an error and no state
change; otherwise sets Starting and clears exit state, then fails to
Failed when the working directory is missing or the spawn fails, and on
success records the start time and sets Running. -/
def Process.start (p : Process) (cwdExists spawnOk : Bool) (now : Nat) :
    Process × Option StartErr :=
  if p.status = Status.running ∨ p.status = Status.starting then
    (p, some StartErr.alreadyRunning)
  else
    let p1 := { p with status := Status.starting, exitErr := none, exitCode := 0 }
    if ¬ cwdExists then
      ({ p1 with status := Status.failed }, some StartErr.noWorkdir)
    else if ¬ spawnOk then
      ({ p1 with status := Status.failed }, some StartErr.spawnFailed)
    else
      ({ p1 with startedAt := now, status := Status.running }, none)

/-- Process.wait: the exit-waiter. Records stop time, exit error and exit
code; an errored exit (err = some e) while not Stopping yields Failed and
while Stopping yields Stopped; a nil error from cmd.Wait (voluntary exit
with code 0) yields Stopped unconditionally. -/
def Process.wait (p : Process) (err : Option (Option Int)) (now : Nat) : Process :=
  match err with
  | some e =>
    let code : Int := match e with | some c => c | none => 0
    let newStatus :=
      if p.status ≠ Status.stopping then Status.failed else Status.stopped
    { p with stoppedAt := now, exitErr := some e, exitCode := code,
             status := newStatus }
  | none =>
    { p with stoppedAt := now, exitErr := none, exitCode := 0,
             status := Status.stopped }

/-- Process.Stop composed with the exit it induces: a no-op unless
Running; otherwise sets Stopping, signals the process group, and the
concurrently running waiter observes the signal-induced ExitError
(ExitCode -1) and finalises the status. Stop itself always returns nil. -/
def Process.stop (p : Process) (now : Nat) : Process :=
  if p.status ≠ Status.running then p
  else Process.wait { p with status := Status.stopping } (some (some (-1))) now

/-- Process.Restart: Stop, a fixed delay, then Start. -/
def Process.restart (p : Process) (cwdExists spawnOk : Bool) (now : Nat) :
    Process × Option StartErr :=
  (p.stop now).start cwdExists spawnOk now

/-- maxAutoRestarts = 5. -/
def maxAutoRestarts : Int := 5

/-- The per-process body of Manager.CheckAutoRestart: for a Failed
process with auto_restart enabled and restartCount below the ceiling,
increments the counter, sleeps, and re-issues Start (its error is
ignored). Returns the new state and whether an attempt was made. -/
def checkAutoRestartStep (p : Process) (cwdExists spawnOk : Bool) (now : Nat) :
    Process × Bool :=
  if p.status = Status.failed ∧ p.config.autoRestart then
    if p.restartCount < maxAutoRestarts then
      let p1 := { p with restartCount := p.restartCount + 1 }
      ((p1.start cwdExists spawnOk now).1, true)
    else (p, false)
  else (p, false)

/-- One round of the continuously-crashing scenario: a CheckAutoRestart
sweep touches the process; when it re-issued Start (successfully spawning),
the process immediately crashes again (exit code 1 observed by the
waiter). All clock reads are at tick 0. -/
def crashLoopRound (p : Process) : Process × Bool :=
  let r := checkAutoRestartStep p true true 0
  if r.2 then (r.1.wait (some (some 1)) 0, true) else (r.1, false)

/-- n rounds of the crash loop; returns final state and the total number
of automatic restart attempts issued. -/
def crashLoop (p : Process) : Nat → Process × Nat
  | 0 => (p, 0)
  | n + 1 =>
    let r := crashLoopRound p
    let rest := crashLoop r.1 n
    (rest.1, (if r.2 then 1 else 0) + rest.2)

/-- process.Manager: the registry map (key: ServiceID.String()) modelled
as a list in iteration order, plus the closed flag of the shared output
channel (the channel contents are drop-on-full and not load-bearing for
the claims). Registry membership is fixed at construction. -/
structure Manager where
  procs : List Process
  chanClosed : Bool
deriving DecidableEq, Repr

/-- The registry's key list, in iteration order. -/
def keysOf (procs : List Process) : List String :=
  procs.map (fun p => p.id.key)

/-- Manager.Get: registry lookup by id.String(). -/
def Manager.get (m : Manager) (id : ServiceID) : Option Process :=
  m.procs.find? (fun p => p.id.key == id.key)

/-- Writing one supervisor's new state back through its registry slot
(the Go code mutates the Process in place through the map's pointer). -/
def Manager.setProc (m : Manager) (p : Process) : Manager :=
  { m with procs := m.procs.map (fun q => if q.id.key = p.id.key then p else q) }

/-- Spawn-environment oracle: whether each service's working directory
exists and whether its spawn succeeds, plus the clock tick. -/
structure SpawnEnv where
  cwdExists : ServiceID → Bool
  spawnOk : ServiceID → Bool
  now : Nat

/-- The dependency loop inside Manager.Start: for every declared
dependency name (resolved inside the target's project), if it is
registered and not Running, start it (aborting with its error on
failure) and poll waitForReady, which mutates nothing. -/
def Manager.startDeps (m : Manager) (id : ServiceID) (env : SpawnEnv) :
    List String → Manager × Option StartErr
  | [] => (m, none)
  | d :: rest =>
    let depID : ServiceID := ⟨id.project, d⟩
    match m.get depID with
    | none => m.startDeps id env rest
    | some depProc =>
      if depProc.status ≠ Status.running then
        let r := depProc.start (env.cwdExists depID) (env.spawnOk depID) env.now
        match r.2 with
        | some e => (m.setProc r.1, some e)
        | none => (m.setProc r.1).startDeps id env rest
      else m.startDeps id env rest

/-- Manager.Start(id): nil for an unregistered id; otherwise emits a
port-conflict advisory (output only), starts the declared dependencies,
aborting on the first dependency error, and finally calls the target
supervisor's own Start. -/
def Manager.start (m : Manager) (id : ServiceID) (env : SpawnEnv) :
    Manager × Option StartErr :=
  match m.get id with
  | none => (m, none)
  | some proc =>
    let r := m.startDeps id env proc.config.dependsOn
    match r.2 with
    | some e => (r.1, some e)
    | none =>
      match r.1.get id with
      | none => (r.1, none)
      | some proc2 =>
        let s := proc2.start (env.cwdExists id) (env.spawnOk id) env.now
        (r.1.setProc s.1, s.2)

/-- Manager.Stop(id): nil for an unregistered id; otherwise the
supervisor's Stop, whose every path returns nil. -/
def Manager.stop (m : Manager) (id : ServiceID) (now : Nat) :
    Manager × Option StartErr :=
  match m.get id with
  | none => (m, none)
  | some p => (m.setProc (p.stop now), none)

/-- Manager.Restart(id): nil for an unregistered id; otherwise the
supervisor's Restart. -/
def Manager.restart (m : Manager) (id : ServiceID) (env : SpawnEnv) :
    Manager × Option StartErr :=
  match m.get id with
  | none => (m, none)
  | some p =>
    let r := p.restart (env.cwdExists id) (env.spawnOk id) env.now
    (m.setProc r.1, r.2)

/-- The dependency keys one registered process declares: each name in
depends_on resolved within the process's own project, rendered as a
registry key (the deps map values in getDependencyOrder). -/
def Process.depKeys (p : Process) : List String :=
  p.config.dependsOn.map (fun d => (ServiceID.mk p.id.project d).key)

/-- One increment of the in-degree map. -/
def bumpFn (f : String → Int) (k : String) : String → Int :=
  fun x => if x = k then f k + 1 else f x

/-- The inDegree map of getDependencyOrder: every registered key starts
at 0 (a total function from keys to Int, defaulting to 0, models the Go
map) and each occurrence of a key in some process's dependency list
increments it — the in-degree of a node is the number of times other
nodes name it as a dependency. -/
def inDeg0 (procs : List Process) : String → Int :=
  procs.foldl (fun deg p => p.depKeys.foldl bumpFn deg) (fun _ => 0)

/-- The initial queue: every key of the inDegree map with degree 0, in
iteration order. Keys of the inDegree map are the registered keys plus
the dependency keys; a dependency key that is not registered was only
ever incremented, so its degree is at least 1 and it never qualifies —
the queue is the registered keys of degree 0. -/
def initQueue (procs : List Process) : List String :=
  (keysOf procs).filter (fun k => inDeg0 procs k == 0)

/-- The (dependent key, dependency key) pairs visited by the nested
reduce-in-degree loops, linearised in iteration order. -/
def depPairs (procs : List Process) : List (String × String) :=
  (procs.map (fun p => p.depKeys.map (fun d => (p.id.key, d)))).flatten

/-- Pointwise update of the in-degree function. -/
def updateFn (f : String → Int) (k : String) (v : Int) : String → Int :=
  fun x => if x = k then v else f x

/-- The body of the reduce-in-degree loop for one (id, dep) pair: when
dep equals the node just dequeued, decrement id's in-degree and enqueue
id when its degree reaches exactly 0. -/
def dec1 (current : String) (dq : (String → Int) × List String)
    (pair : String × String) : (String → Int) × List String :=
  if pair.2 = current then
    let d := dq.1 pair.1 - 1
    (updateFn dq.1 pair.1 d, if d = 0 then dq.2 ++ [pair.1] else dq.2)
  else dq

/-- Reduce in-degrees after dequeuing current: the nested loops over the
deps map. -/
def kahnStep (procs : List Process) (current : String) (deg : String → Int)
    (queue : List String) : (String → Int) × List String :=
  (depPairs procs).foldl (dec1 current) (deg, queue)

/-- The Kahn queue loop of getDependencyOrder: dequeue, append the first
registered process whose key matches to the result, reduce in-degrees.
The loop is fuelled; procs.length + 1 pops suffice because, as proved
below, every enqueued key is a registered key enqueued at most once. -/
def kahnLoop (procs : List Process) :
    Nat → List String → (String → Int) → List ServiceID → List ServiceID
  | 0, _, _, result => result
  | _ + 1, [], _, result => result
  | fuel + 1, current :: rest, deg, result =>
    let result2 :=
      match procs.find? (fun p => p.id.key == current) with
      | some p => result ++ [p.id]
      | none => result
    let dq := kahnStep procs current deg rest
    kahnLoop procs fuel dq.2 dq.1 result2

/-- Manager.getDependencyOrder: Kahn's algorithm over the dependency
edges; if the result misses any service (a cycle — or, as proved below,
any dependency edge at all), falls back to the full unordered list. -/
def Manager.getDependencyOrder (m : Manager) : List ServiceID :=
  let allIDs := m.procs.map (fun p => p.id)
  let result :=
    kahnLoop m.procs (m.procs.length + 1) (initQueue m.procs) (inDeg0 m.procs) []
  if result.length ≠ allIDs.length then allIDs else result

/-- The loop body of Manager.StartAll over the computed order: skip
unregistered ids and Running supervisors, otherwise issue Start (error
ignored) and sleep the inter-start delay. The issued Start calls are
recorded in order. -/
def startAllLoop (env : SpawnEnv) :
    List ServiceID → Manager → List ServiceID → Manager × List ServiceID
  | [], m, trace => (m, trace)
  | id :: rest, m, trace =>
    match m.get id with
    | some p =>
      if p.status ≠ Status.running then
        startAllLoop env rest
          (m.setProc (p.start (env.cwdExists id) (env.spawnOk id) env.now).1)
          (trace ++ [id])
      else startAllLoop env rest m trace
    | none => startAllLoop env rest m trace

/-- Manager.StartAll: iterate the dependency order once, returning the
final registry and the ordered list of services on which Start was
issued. -/
def Manager.startAll (m : Manager) (env : SpawnEnv) : Manager × List ServiceID :=
  startAllLoop env m.getDependencyOrder m []

/-- Manager.StopAll: Stop every supervisor (concurrently in Go; each stop
touches only its own supervisor, so the parallel join equals the map). -/
def Manager.stopAll (m : Manager) (now : Nat) : Manager :=
  { m with procs := m.procs.map (fun p => p.stop now) }

/-- Manager.Shutdown: StopAll, then close(outputCh). Closing an
already-closed Go channel panics; the panic is the error case. -/
def Manager.shutdown (m : Manager) (now : Nat) : Except Unit Manager :=
  let m1 := m.stopAll now
  if m1.chanClosed then Except.error ()
  else Except.ok { m1 with chanClosed := true }

/-- Manager.CheckAutoRestart: the sweep over the registry snapshot; each
iteration touches only its own supervisor. -/
def Manager.checkAutoRestart (m : Manager) (env : SpawnEnv) : Manager :=
  { m with
    procs := m.procs.map (fun p =>
      (checkAutoRestartStep p (env.cwdExists p.id) (env.spawnOk p.id) env.now).1) }

/-- Manager.CheckPortConflict(id): false for an unregistered id or one
with no declared port; otherwise true together with the first other
registered service that declares the same port and is currently Running. -/
def Manager.checkPortConflict (m : Manager) (id : ServiceID) : Bool × ServiceID :=
  match m.get id with
  | none => (false, ⟨"", ""⟩)
  | some proc =>
    if proc.config.port = 0 then (false, ⟨"", ""⟩)
    else
      match m.procs.find? (fun other =>
          decide (other.id ≠ id) && decide (other.config.port = proc.config.port)
            && decide (other.status = Status.running)) with
      | some other => (true, other.id)
      | none => (false, ⟨"", ""⟩)

/-- log.Entry: one stored log line. -/
structure Entry where
  serviceID : ServiceID
  line : String
  isStderr : Bool
  timestamp : Nat
deriving DecidableEq, Repr

/-- log.Buffer: the per-service entry map (a total function from key
strings to entry lists, defaulting to the empty list, models the Go map
whose missing keys read as nil) and the capacity. -/
structure Buffer where
  entries : String → List Entry
  maxSize : Int

/-- log.NewBuffer: a non-positive capacity falls back to
DefaultBufferSize = 1000. -/
def Buffer.new (maxSize : Int) : Buffer :=
  { entries := fun _ => [],
    maxSize := if maxSize ≤ 0 then 1000 else maxSize }

/-- Buffer.Add: append the entry under its service key and, when over
capacity, keep only the final maxSize entries (the slice
entries[len(entries)-maxSize:]). -/
def Buffer.add (b : Buffer) (e : Entry) : Buffer :=
  let key := e.serviceID.key
  let es := b.entries key ++ [e]
  let es2 :=
    if (es.length : Int) > b.maxSize then es.drop (es.length - b.maxSize.toNat)
    else es
  { b with entries := fun k => if k = key then es2 else b.entries k }

/-- Buffer.Get: all entries for a service (the Go copy is identity in a
pure model). -/
def Buffer.get (b : Buffer) (id : ServiceID) : List Entry :=
  b.entries id.key

/-- Go strings.ToLower, restricted to the simple per-character fold. -/
def lowerStr (s : String) : String :=
  String.mk (s.toList.map Char.toLower)

/-- Go strings.Contains on character lists: sub occurs contiguously. -/
def hasSub (sub : List Char) : List Char → Bool
  | [] => sub.isEmpty
  | c :: t => sub.isPrefixOf (c :: t) || hasSub sub t

/-- Go strings.Contains(s, sub). -/
def strContains (s sub : String) : Bool :=
  hasSub sub.toList s.toList

/-- Buffer.GetFiltered: all entries when the filter is empty, otherwise
the entries whose lowered line contains the lowered filter. -/
def Buffer.getFiltered (b : Buffer) (id : ServiceID) (filter : String) :
    List Entry :=
  let entries := b.get id
  if filter = "" then entries
  else
    let f := lowerStr filter
    entries.filter (fun e => strContains (lowerStr e.line) f)

/-- Buffer.ErrorCount: the number of stderr-tagged entries for a service. -/
def Buffer.errorCount (b : Buffer) (id : ServiceID) : Nat :=
  (b.entries id.key).countP (fun e => e.isStderr)

/-! Concrete inputs for the counterexamples and witnesses. -/

/-- A supervisor observed while Running, with no Stop in flight. -/
def demoRunning : Process :=
  { Process.new ⟨"demo", "api"⟩ Service.base "/srv/api" with
    status := Status.running, startedAt := 3 }

/-- A continuously-crashing auto-restart-enabled supervisor as the
waiter leaves it: Failed with exit code 1, counter at 0. -/
def demoCrashed : Process :=
  { Process.new ⟨"demo", "worker"⟩ { Service.base with autoRestart := true }
      "/srv/worker" with
    status := Status.failed, exitCode := 1, exitErr := some (some 1) }

/-- The dependency chain of the spec: b depends on a, c depends on b,
registered in the map-iteration order [b, c, a]. -/
def procA : Process := Process.new ⟨"p", "a"⟩ Service.base "/srv/a"

def procB : Process :=
  Process.new ⟨"p", "b"⟩ { Service.base with dependsOn := ["a"] } "/srv/b"

def procC : Process :=
  Process.new ⟨"p", "c"⟩ { Service.base with dependsOn := ["b"] } "/srv/c"

def chainM : Manager := { procs := [procB, procC, procA], chanClosed := false }

/-- A spawn environment where every directory exists and every spawn
succeeds, at tick 0. -/
def envOK : SpawnEnv := { cwdExists := fun _ => true, spawnOk := fun _ => true, now := 0 }

/-- Two services sharing port 4000, the first Running, plus a portless
service. -/
def portSvcA : Process :=
  { Process.new ⟨"p", "pa"⟩ { Service.base with port := 4000 } "/srv/pa" with
    status := Status.running }

def portSvcB : Process :=
  Process.new ⟨"p", "pb"⟩ { Service.base with port := 4000 } "/srv/pb"

def portSvcC : Process := Process.new ⟨"p", "pc"⟩ Service.base "/srv/pc"

def portM : Manager := { procs := [portSvcA, portSvcB, portSvcC], chanClosed := false }

/-- Ten sequential log entries for one service. -/
def demoLogID : ServiceID := ⟨"test", "backend"⟩

def demoEntry (n : Nat) : Entry :=
  { serviceID := demoLogID, line := toString n, isStderr := false, timestamp := n }

def demoEntries : List Entry := (List.range 10).map (fun n => demoEntry (n + 1))

/-- A buffer holding the three lines of the filtering example. -/
def filterEntry (l : String) : Entry :=
  { serviceID := demoLogID, line := l, isStderr := false, timestamp := 0 }

def demoFilterBuf : Buffer :=
  ((Buffer.new 100).add (filterEntry "ERROR: x")).add
    (filterEntry "error: y") |>.add (filterEntry "warn: z")

/-- The Kahn-loop invariant, relative to the keys already dequeued (P):
the dequeued keys and the queue are pairwise distinct, a registered key
is dequeued-or-queued exactly when its in-degree counter has reached 0
or below, and only registered keys are ever queued. -/
def StepInv (procs : List Process) (P : List String)
    (dq : (String → Int) × List String) : Prop :=
  (P ++ dq.2).Nodup
  ∧ (∀ k ∈ keysOf procs, (k ∈ P ∨ k ∈ dq.2) ↔ dq.1 k ≤ 0)
  ∧ (∀ k ∈ dq.2, k ∈ keysOf procs)

/-! Theorems. -/

/-- Claim C1, as stated, is false on the code: a voluntary exit with
code 0 (cmd.Wait returns nil) observed while the supervisor was Running
with no Stop in flight is classified Stopped, not Failed. -/
theorem c1_counterexample :
    ¬ (∀ (p : Process) (err : Option (Option Int)) (now : Nat),
        p.status ≠ Status.stopping → (p.wait err now).status = Status.failed) := by
  intro h
  exact absurd (h demoRunning none 7 (by decide)) (by decide)

/-- Claim C1 amended: the exit-waiter sets Failed exactly when cmd.Wait
reports an error (nonzero exit code or abnormal termination) and the
status is not Stopping; an errored exit during Stopping yields Stopped;
an error-free exit (voluntary, code 0) yields Stopped regardless of the
status. -/
theorem c1_exit_classification (p : Process) (e : Option Int) (now : Nat) :
    ((p.wait (some e) now).status
      = if p.status = Status.stopping then Status.stopped else Status.failed)
    ∧ (p.wait none now).status = Status.stopped := by
  refine ⟨?_, rfl⟩
  by_cases h : p.status = Status.stopping <;> simp [Process.wait, h]

/-- Claim C6: Start() on a Starting or Running supervisor returns an
error and returns the supervisor completely unchanged — no spawn, no
field mutation. -/
theorem c6_start_when_active_rejected (p : Process) (cwdE sp : Bool) (now : Nat)
    (h : p.status = Status.starting ∨ p.status = Status.running) :
    p.start cwdE sp now = (p, some StartErr.alreadyRunning) := by
  rcases h with h | h <;> simp [Process.start, h]

/-- Witness for c6_start_when_active_rejected at a Running supervisor. -/
theorem c6_witness :
    (demoRunning.status = Status.starting ∨ demoRunning.status = Status.running)
    ∧ demoRunning.start true true 5 = (demoRunning, some StartErr.alreadyRunning) :=
  ⟨by decide, c6_start_when_active_rejected demoRunning true true 5 (by decide)⟩

/-- Claim C9, as stated, is false on the code: close(outputCh) is
unguarded, so while the first Shutdown() succeeds, a second Shutdown()
on the same Manager closes the already-closed channel and faults. -/
theorem c9_counterexample :
    (chainM.shutdown 0).isOk = true
    ∧ (chainM.shutdown 0).bind (fun m1 => m1.shutdown 0) = Except.error () :=
  ⟨rfl, rfl⟩

/-- Claim C9 amended: Shutdown() first runs StopAll() and then closes
the shared output channel unconditionally; with the channel still open
it succeeds and marks it closed, and with the channel already closed
(a repeated Shutdown) it faults. The channel is therefore closed exactly
once only when Shutdown() is invoked at most once. -/
theorem c9_shutdown_close_once (m : Manager) (now : Nat) :
    (¬ m.chanClosed →
      m.shutdown now = Except.ok { m.stopAll now with chanClosed := true })
    ∧ (m.chanClosed → m.shutdown now = Except.error ()) := by
  constructor <;> intro h <;> simp [Manager.shutdown, Manager.stopAll] at h ⊢ <;> simp [h]

/-- Witness for c9_shutdown_close_once: the first Shutdown on an
open-channel Manager succeeds. -/
theorem c9_witness :
    (¬ chainM.chanClosed)
    ∧ chainM.shutdown 0 = Except.ok { chainM.stopAll 0 with chanClosed := true } :=
  ⟨by decide, (c9_shutdown_close_once chainM 0).1 (by decide)⟩

/-- Claim C10: for an id outside the registry, Manager.Start, Manager.Stop
and Manager.Restart all return nil and leave the Manager unchanged. -/
theorem c10_unknown_id_noop (m : Manager) (id : ServiceID) (env : SpawnEnv)
    (now : Nat) (h : ∀ p ∈ m.procs, p.id.key ≠ id.key) :
    m.start id env = (m, none) ∧ m.stop id now = (m, none)
      ∧ m.restart id env = (m, none) := by
  have hget : m.get id = none := by
    rw [Manager.get, List.find?_eq_none]
    intro p hp
    simpa using h p hp
  refine ⟨?_, ?_, ?_⟩ <;> simp [Manager.start, Manager.stop, Manager.restart, hget]

/-- Witness for c10_unknown_id_noop at an id foreign to the chain
registry. -/
theorem c10_witness :
    (∀ p ∈ chainM.procs, p.id.key ≠ (ServiceID.mk "q" "zzz").key)
    ∧ chainM.start ⟨"q", "zzz"⟩ envOK = (chainM, none)
    ∧ chainM.stop ⟨"q", "zzz"⟩ 0 = (chainM, none)
    ∧ chainM.restart ⟨"q", "zzz"⟩ envOK = (chainM, none) :=
  ⟨by decide, c10_unknown_id_noop chainM ⟨"q", "zzz"⟩ envOK 0 (by decide)⟩

/-- Claim C5: for a registered id, CheckPortConflict returns false when
id declares no port; with a declared port it returns true exactly when
some other registered service declares the same port and is currently
Running, and the returned ServiceID is such a colliding service. -/
theorem c5_port_conflict_iff (m : Manager) (id : ServiceID) (proc : Process)
    (hget : m.get id = some proc) :
    (proc.config.port = 0 → (m.checkPortConflict id).1 = false)
    ∧ (proc.config.port ≠ 0 →
        ((m.checkPortConflict id).1 = true ↔
          ∃ other ∈ m.procs, other.id ≠ id
            ∧ other.config.port = proc.config.port
            ∧ other.status = Status.running))
    ∧ ((m.checkPortConflict id).1 = true →
        ∃ other ∈ m.procs, other.id = (m.checkPortConflict id).2
          ∧ other.id ≠ id ∧ other.config.port = proc.config.port
          ∧ other.status = Status.running) := by
  simp only [Manager.checkPortConflict, hget]
  by_cases hp : proc.config.port = 0
  · simp [hp]
  · rw [if_neg hp]
    cases hfind : m.procs.find? (fun other =>
        decide (other.id ≠ id) && decide (other.config.port = proc.config.port)
          && decide (other.status = Status.running)) with
    | none =>
      rw [List.find?_eq_none] at hfind
      refine ⟨fun h => absurd h hp, fun _ => ⟨fun h => absurd h (by simp), ?_⟩,
        fun h => absurd h (by simp)⟩
      rintro ⟨other, hmem, h1, h2, h3⟩
      exact (hfind other hmem (by simp [h1, h2, h3])).elim
    | some other =>
      have hmem := List.mem_of_find?_eq_some hfind
      have hprop := List.find?_some hfind
      simp only [Bool.and_eq_true, decide_eq_true_eq] at hprop
      refine ⟨fun h => absurd h hp, fun _ => ⟨fun _ => ?_, fun _ => rfl⟩,
        fun _ => ?_⟩
      · exact ⟨other, hmem, hprop.1.1, hprop.1.2, hprop.2⟩
      · exact ⟨other, hmem, rfl, hprop.1.1, hprop.1.2, hprop.2⟩

/-- Witness for c5_port_conflict_iff: a stopped service whose port 4000
is also declared by a Running service yields a true conflict with that
service, and the portless third service never conflicts. -/
theorem c5_witness :
    portM.get ⟨"p", "pb"⟩ = some portSvcB
    ∧ (portSvcB.config.port ≠ 0 →
        ((portM.checkPortConflict ⟨"p", "pb"⟩).1 = true ↔
          ∃ other ∈ portM.procs, other.id ≠ ⟨"p", "pb"⟩
            ∧ other.config.port = portSvcB.config.port
            ∧ other.status = Status.running))
    ∧ (portM.checkPortConflict ⟨"p", "pb"⟩) = (true, portSvcA.id)
    ∧ (portM.checkPortConflict ⟨"p", "pc"⟩) = (false, ⟨"", ""⟩) :=
  ⟨by decide, (c5_port_conflict_iff portM ⟨"p", "pb"⟩ portSvcB (by decide)).2.1,
    by decide, by decide⟩

/-- One crash-loop round below the ceiling: the sweep increments the
counter, restarts the process, and the ensuing crash returns it to
Failed with every other field as before. -/
theorem crashLoopRound_lt (k : Nat) (hk : k < 5) :
    crashLoopRound { demoCrashed with restartCount := (k : Int) }
      = ({ demoCrashed with restartCount := (k : Int) + 1 }, true) := by
  have hk5 : (k : Int) < 5 := by exact_mod_cast hk
  simp [crashLoopRound, checkAutoRestartStep, maxAutoRestarts, demoCrashed,
    Process.new, Service.base, Process.start, Process.wait, hk5]

/-- One crash-loop round at the ceiling: a no-op. -/
theorem crashLoopRound_ceiling :
    crashLoopRound { demoCrashed with restartCount := ((5 : Nat) : Int) }
      = ({ demoCrashed with restartCount := ((5 : Nat) : Int) }, false) := by
  simp [crashLoopRound, checkAutoRestartStep, maxAutoRestarts, demoCrashed,
    Process.new, Service.base]

/-- Closed form of the crash loop: starting from counter k ≤ 5, after n
rounds the counter is min (k + n) 5 and min n (5 - k) attempts were
issued. -/
theorem crashLoop_closed (n : Nat) :
    ∀ (k : Nat), k ≤ 5 →
      crashLoop { demoCrashed with restartCount := (k : Int) } n
        = ({ demoCrashed with restartCount := ((min (k + n) 5 : Nat) : Int) },
            min n (5 - k)) := by
  induction n with
  | zero =>
    intro k hk
    have h1 : min (k + 0) 5 = k := by omega
    have h2 : min 0 (5 - k) = 0 := by omega
    simp only [crashLoop, h1, h2]
  | succ n ih =>
    intro k hk
    rcases Nat.lt_or_ge k 5 with hlt | hge
    · have hstep := crashLoopRound_lt k hlt
      have hcast : ((k : Int) + 1) = ((k + 1 : Nat) : Int) := by push_cast; ring
      have hrec := ih (k + 1) (by omega)
      rw [hcast] at hstep
      have h1 : min (k + 1 + n) 5 = min (k + (n + 1)) 5 := by omega
      have h2 : (1 : Nat) + min n (5 - (k + 1)) = min (n + 1) (5 - k) := by omega
      rw [h1] at hrec
      simp only [crashLoop, hstep, hrec, if_true]
      rw [h2]
    · have hk5 : k = 5 := by omega
      subst hk5
      have hrec := ih 5 (by omega)
      have h1 : min (5 + n) 5 = min (5 + (n + 1)) 5 := by omega
      have h2 : min n (5 - 5) = min (n + 1) (5 - 5) := by omega
      rw [h1, h2] at hrec
      simp only [crashLoop, crashLoopRound_ceiling, hrec, Bool.false_eq_true,
        if_false, Nat.zero_add]

/-- Claim C4: in the continuously-crashing auto-restart scenario, n
CheckAutoRestart sweeps issue exactly min n 5 restart attempts, the
counter is pinned at min n 5 and the service is Failed; an attempt is
only ever made while the counter is strictly below the ceiling, and at
or above the ceiling the sweep never touches the supervisor again. -/
theorem c4_auto_restart_ceiling :
    (∀ n : Nat,
      (crashLoop demoCrashed n).2 = min n 5
      ∧ (crashLoop demoCrashed n).1.restartCount = ((min n 5 : Nat) : Int)
      ∧ (crashLoop demoCrashed n).1.status = Status.failed)
    ∧ (∀ (p : Process) (c s : Bool) (t : Nat),
        maxAutoRestarts ≤ p.restartCount →
          checkAutoRestartStep p c s t = (p, false))
    ∧ (∀ (p : Process) (c s : Bool) (t : Nat),
        (checkAutoRestartStep p c s t).2 = true →
          p.restartCount < maxAutoRestarts) := by
  refine ⟨?_, ?_, ?_⟩
  · intro n
    have h0 : demoCrashed = { demoCrashed with restartCount := ((0 : Nat) : Int) } := rfl
    rw [h0, crashLoop_closed n 0 (by omega)]
    refine ⟨by omega, by simp, rfl⟩
  · intro p c s t h
    unfold checkAutoRestartStep
    split
    · rw [if_neg (by omega)]
    · rfl
  · intro p c s t h
    by_contra hlt
    simp [checkAutoRestartStep, hlt] at h

/-- Witness for c4_auto_restart_ceiling: seven sweeps over the crashing
demo supervisor yield exactly five attempts, counter 5, still Failed,
and the sweep at the ceiling is a no-op. -/
theorem c4_witness :
    ((crashLoop demoCrashed 7).2 = min 7 5
      ∧ (crashLoop demoCrashed 7).1.restartCount = ((min 7 5 : Nat) : Int)
      ∧ (crashLoop demoCrashed 7).1.status = Status.failed)
    ∧ (maxAutoRestarts ≤ ({ demoCrashed with restartCount := 5 } : Process).restartCount
      ∧ checkAutoRestartStep { demoCrashed with restartCount := 5 } true true 0
          = ({ demoCrashed with restartCount := 5 }, false)) :=
  ⟨c4_auto_restart_ceiling.1 7,
    by decide,
    c4_auto_restart_ceiling.2.1 { demoCrashed with restartCount := 5 } true true 0
      (by decide)⟩

/-- Claim C2 fails on the code (the "topological sort" comment states the
intent, the implementation does not deliver it): on the chain where b
depends on a and c depends on b, the Kahn phase dequeues only the leaf c
(its in-degree counts dependents, but the reduction step decrements the
dependents of the dequeued node, so nothing is ever released), the
length check triggers the cycle fallback, and StartAll issues Start in
raw registry order — here Start(b) strictly before Start(a), the reverse
of the claimed dependency order. -/
theorem c2_dependency_chain_eval :
    kahnLoop chainM.procs 4 (initQueue chainM.procs) (inDeg0 chainM.procs) []
      = [procC.id]
    ∧ chainM.getDependencyOrder = [procB.id, procC.id, procA.id]
    ∧ (chainM.startAll envOK).2 = [procB.id, procC.id, procA.id]
    ∧ procB.config.dependsOn = ["a"]
    ∧ (chainM.startAll envOK).2.indexOf procB.id
        < (chainM.startAll envOK).2.indexOf procA.id := by
  decide

/-- Keeping the last c elements is stable under appending one element:
trimming the already-trimmed list agrees with trimming the full history. -/
theorem drop_last_append {α : Type} (c : Nat) (L : List α) (e : α) :
    (L.drop (L.length - c) ++ [e]).drop
        ((L.drop (L.length - c) ++ [e]).length - c)
      = (L ++ [e]).drop ((L ++ [e]).length - c) := by
  have hk : L.length - c ≤ L.length := Nat.sub_le _ _
  rw [← List.drop_append_of_le_length hk, List.drop_drop]
  congr 1
  simp only [List.length_drop, List.length_append, List.length_cons,
    List.length_nil]
  omega

/-- Buffer.Add never changes the capacity. -/
theorem foldAdd_maxSize (es : List Entry) (b : Buffer) :
    (es.foldl Buffer.add b).maxSize = b.maxSize := by
  induction es generalizing b with
  | nil => rfl
  | cons e t ih => rw [List.foldl_cons, ih]; rfl

/-- Folding Add over entries of one service: the stored list is the last
maxSize elements of the full append history. -/
theorem foldAdd_get (s : ServiceID) (es : List Entry) (b : Buffer)
    (hmax : 0 < b.maxSize)
    (hlen : (b.entries s.key).length ≤ b.maxSize.toNat)
    (hall : ∀ e ∈ es, e.serviceID.key = s.key) :
    (es.foldl Buffer.add b).entries s.key
      = (b.entries s.key ++ es).drop
          ((b.entries s.key ++ es).length - b.maxSize.toNat) := by
  induction es using List.reverseRecOn with
  | nil =>
    simp only [List.foldl_nil, List.append_nil]
    rw [Nat.sub_eq_zero_of_le hlen, List.drop_zero]
  | append_singleton t e ih =>
    have ht : ∀ x ∈ t, x.serviceID.key = s.key := fun x hx =>
      hall x (List.mem_append_left _ hx)
    have he : e.serviceID.key = s.key := hall e (by simp)
    have hcur := ih ht
    rw [List.foldl_append, List.foldl_cons, List.foldl_nil]
    set B := t.foldl Buffer.add b with hB
    have hBmax : B.maxSize = b.maxSize := foldAdd_maxSize t b
    have hc : 0 < b.maxSize.toNat := by omega
    set L := b.entries s.key ++ t with hL
    unfold Buffer.add
    simp only [he, hBmax, hcur]
    rw [if_pos trivial]
    have hes2 :
        (if ((L.drop (L.length - b.maxSize.toNat) ++ [e]).length : Int) > b.maxSize
          then (L.drop (L.length - b.maxSize.toNat) ++ [e]).drop
            ((L.drop (L.length - b.maxSize.toNat) ++ [e]).length - b.maxSize.toNat)
          else L.drop (L.length - b.maxSize.toNat) ++ [e])
        = (L.drop (L.length - b.maxSize.toNat) ++ [e]).drop
            ((L.drop (L.length - b.maxSize.toNat) ++ [e]).length - b.maxSize.toNat) := by
      by_cases hcond :
          ((L.drop (L.length - b.maxSize.toNat) ++ [e]).length : Int) > b.maxSize
      · rw [if_pos hcond]
      · rw [if_neg hcond]
        have hle : (L.drop (L.length - b.maxSize.toNat) ++ [e]).length
            ≤ b.maxSize.toNat := by omega
        rw [Nat.sub_eq_zero_of_le hle, List.drop_zero]
    rw [hes2, drop_last_append]
    rw [hL, List.append_assoc]

/-- Claim C7: folding n sequential Adds for one service into a fresh
buffer of capacity c > 0 retains exactly the last min(n, c) entries in
insertion order, evicting oldest first. -/
theorem c7_ring_buffer_retention (c : Int) (es : List Entry) (s : ServiceID)
    (hc : 0 < c) (hall : ∀ e ∈ es, e.serviceID = s) :
    (es.foldl Buffer.add (Buffer.new c)).get s = es.drop (es.length - c.toNat)
    ∧ ((es.foldl Buffer.add (Buffer.new c)).get s).length
        = min es.length c.toNat := by
  have hmax : (Buffer.new c).maxSize = c := by
    unfold Buffer.new
    simp only
    rw [if_neg (by omega)]
  have hentries : (Buffer.new c).entries s.key = [] := rfl
  have h := foldAdd_get s es (Buffer.new c) (by rw [hmax]; exact hc)
    (by rw [hentries]; simp) (fun e he => by rw [hall e he])
  rw [hentries, List.nil_append, hmax] at h
  have hget : (es.foldl Buffer.add (Buffer.new c)).get s
      = es.drop (es.length - c.toNat) := h
  refine ⟨hget, ?_⟩
  rw [hget, List.length_drop]
  omega

/-- Witness for c7_ring_buffer_retention: a buffer of capacity 5
receiving the ten entries 1..10 retains exactly entries 6..10. -/
theorem c7_witness :
    (0 : Int) < 5
    ∧ (∀ e ∈ demoEntries, e.serviceID = demoLogID)
    ∧ (demoEntries.foldl Buffer.add (Buffer.new 5)).get demoLogID
        = demoEntries.drop (demoEntries.length - (5 : Int).toNat)
    ∧ demoEntries.drop (demoEntries.length - (5 : Int).toNat)
        = [demoEntry 6, demoEntry 7, demoEntry 8, demoEntry 9, demoEntry 10] :=
  ⟨by decide, by decide,
    (c7_ring_buffer_retention 5 demoEntries demoLogID (by decide) (by decide)).1,
    by decide⟩

/-- Claim C8: with a nonempty filter, GetFiltered returns exactly the
stored entries whose lowered line contains the lowered filter, as a
sublist (stored order); with the empty filter it returns everything. -/
theorem c8_filter_characterization (b : Buffer) (id : ServiceID) (f : String)
    (hf : f ≠ "") :
    (∀ e, e ∈ b.getFiltered id f ↔
        e ∈ b.get id ∧ strContains (lowerStr e.line) (lowerStr f) = true)
    ∧ List.Sublist (b.getFiltered id f) (b.get id)
    ∧ b.getFiltered id "" = b.get id := by
  unfold Buffer.getFiltered
  rw [if_neg hf, if_pos rfl]
  exact ⟨fun e => List.mem_filter, List.filter_sublist _, rfl⟩

/-- Witness for c8_filter_characterization: filtering the three-line
demo buffer with "error" keeps "ERROR: x" and "error: y" and drops
"warn: z". -/
theorem c8_witness :
    ("error" : String) ≠ ""
    ∧ (∀ e, e ∈ demoFilterBuf.getFiltered demoLogID "error" ↔
        e ∈ demoFilterBuf.get demoLogID
          ∧ strContains (lowerStr e.line) (lowerStr "error") = true)
    ∧ demoFilterBuf.getFiltered demoLogID "error"
        = [filterEntry "ERROR: x", filterEntry "error: y"] :=
  ⟨by decide,
    (c8_filter_characterization demoFilterBuf demoLogID "error" (by decide)).1,
    by decide⟩

/-- Folding the increment over a key list adds the occurrence count. -/
theorem foldl_bumpFn_count (ls : List String) :
    ∀ (deg : String → Int) (k : String),
      (ls.foldl bumpFn deg) k = deg k + (ls.count k : Int) := by
  induction ls with
  | nil => intro deg k; simp
  | cons a t ih =>
    intro deg k
    rw [List.foldl_cons, ih]
    by_cases hk : k = a
    · subst hk
      simp [bumpFn, List.count_cons]
      ring
    · have hne : (a == k) = false := by
        simp only [beq_eq_false_iff_ne, ne_eq]
        exact fun h => hk h.symm
      simp [bumpFn, hk, List.count_cons, hne]

/-- The in-degree of a key is the total number of times the registered
processes name it as a dependency. -/
theorem inDeg0_count (procs : List Process) (k : String) :
    inDeg0 procs k = ((procs.map (fun p => p.depKeys.count k)).sum : Int) := by
  suffices h : ∀ (ps : List Process) (deg : String → Int),
      (ps.foldl (fun deg p => p.depKeys.foldl bumpFn deg) deg) k
        = deg k + ((ps.map (fun p => p.depKeys.count k)).sum : Int) by
    have := h procs (fun _ => 0)
    simpa [inDeg0] using this
  intro ps
  induction ps with
  | nil => intro deg; simp
  | cons p t ih =>
    intro deg
    rw [List.foldl_cons, ih, foldl_bumpFn_count]
    simp
    ring

/-- In-degrees are never negative. -/
theorem inDeg0_nonneg (procs : List Process) (k : String) :
    0 ≤ inDeg0 procs k := by
  rw [inDeg0_count]
  apply List.sum_nonneg
  intro x hx
  simp only [List.mem_map] at hx
  obtain ⟨p, _, hp⟩ := hx
  rw [← hp]
  exact Int.natCast_nonneg _

/-- Every pair produced by the reduce-in-degree loop has a registered
dependent as its first component. -/
theorem depPairs_fst (procs : List Process) :
    ∀ pr ∈ depPairs procs, pr.1 ∈ keysOf procs := by
  intro pr hpr
  simp only [depPairs, List.mem_flatten, List.mem_map] at hpr
  obtain ⟨l, ⟨p, hp, hl⟩, hprl⟩ := hpr
  subst hl
  simp only [List.mem_map] at hprl
  obtain ⟨d, _, hd⟩ := hprl
  subst hd
  exact List.mem_map_of_mem _ hp

/-- One reduce-in-degree step preserves the Kahn invariant. -/
theorem dec1_stepInv (procs : List Process) (P : List String) (current : String)
    (dq : (String → Int) × List String) (pair : String × String)
    (hfst : pair.1 ∈ keysOf procs) (h : StepInv procs P dq) :
    StepInv procs P (dec1 current dq pair) := by
  obtain ⟨hnd, hiff, hsub⟩ := h
  unfold dec1
  by_cases hcur : pair.2 = current
  · rw [if_pos hcur]
    show StepInv procs P
      (updateFn dq.1 pair.1 (dq.1 pair.1 - 1),
        if dq.1 pair.1 - 1 = 0 then dq.2 ++ [pair.1] else dq.2)
    by_cases hd : dq.1 pair.1 - 1 = 0
    · rw [if_pos hd]
      have hold : dq.1 pair.1 = 1 := by omega
      have hnotin : ¬ (pair.1 ∈ P ∨ pair.1 ∈ dq.2) := by
        intro hmem
        have := (hiff pair.1 hfst).mp hmem
        omega
      refine ⟨?_, ?_, ?_⟩
      · rw [← List.append_assoc]
        refine List.Nodup.append hnd (List.nodup_singleton _) ?_
        intro x hx hx1
        rw [List.mem_singleton] at hx1
        subst hx1
        rw [List.mem_append] at hx
        exact hnotin hx
      · intro k hk
        dsimp only
        by_cases hkp : k = pair.1
        · subst hkp
          have hupd : updateFn dq.1 pair.1 (dq.1 pair.1 - 1) pair.1
              = dq.1 pair.1 - 1 := by simp [updateFn]
          rw [hupd]
          constructor
          · intro _; omega
          · intro _
            exact Or.inr (List.mem_append_right _ (List.mem_singleton_self _))
        · have hupd : updateFn dq.1 pair.1 (dq.1 pair.1 - 1) k = dq.1 k := by
            simp [updateFn, hkp]
          rw [hupd, List.mem_append, List.mem_singleton]
          have hiffk := hiff k hk
          constructor
          · rintro (hp | hq | hk1)
            · exact hiffk.mp (Or.inl hp)
            · exact hiffk.mp (Or.inr hq)
            · exact absurd hk1 hkp
          · intro hle
            rcases hiffk.mpr hle with hp | hq
            · exact Or.inl hp
            · exact Or.inr (Or.inl hq)
      · intro k hk
        dsimp only at hk
        rw [List.mem_append, List.mem_singleton] at hk
        rcases hk with hk | hk
        · exact hsub k hk
        · subst hk; exact hfst
    · rw [if_neg hd]
      refine ⟨hnd, ?_, hsub⟩
      intro k hk
      dsimp only
      by_cases hkp : k = pair.1
      · subst hkp
        have hupd : updateFn dq.1 pair.1 (dq.1 pair.1 - 1) pair.1
            = dq.1 pair.1 - 1 := by simp [updateFn]
        rw [hupd]
        have hiffp := hiff pair.1 hk
        constructor
        · intro hmem
          have := hiffp.mp hmem
          omega
        · intro hle
          exact hiffp.mpr (by omega)
      · have hupd : updateFn dq.1 pair.1 (dq.1 pair.1 - 1) k = dq.1 k := by
          simp [updateFn, hkp]
        rw [hupd]
        exact hiff k hk
  · rw [if_neg hcur]
    exact ⟨hnd, hiff, hsub⟩

/-- Folding the reduce-in-degree step over any pair list preserves the
Kahn invariant. -/
theorem foldl_dec1_stepInv (procs : List Process) (P : List String)
    (current : String) :
    ∀ (pairs : List (String × String)) (dq : (String → Int) × List String),
      (∀ pr ∈ pairs, pr.1 ∈ keysOf procs) → StepInv procs P dq →
      StepInv procs P (pairs.foldl (dec1 current) dq) := by
  intro pairs
  induction pairs with
  | nil => intro dq _ h; exact h
  | cons pr t ih =>
    intro dq hfst h
    rw [List.foldl_cons]
    exact ih _ (fun x hx => hfst x (List.mem_cons_of_mem _ hx))
      (dec1_stepInv procs P current dq pr (hfst pr (List.mem_cons_self _ _)) h)

/-- A registered key is found by the result-append lookup, and the found
process carries that key. -/
theorem find_key (procs : List Process) (k : String) (hk : k ∈ keysOf procs) :
    ∃ p, procs.find? (fun p => p.id.key == k) = some p
      ∧ p.id.key = k ∧ p ∈ procs := by
  induction procs with
  | nil => simp [keysOf] at hk
  | cons q t ih =>
    by_cases hq : q.id.key = k
    · exact ⟨q, List.find?_cons_of_pos _ (by simp [hq]), hq, List.mem_cons_self _ _⟩
    · have hk' : k ∈ keysOf t := by
        simp only [keysOf, List.map_cons, List.mem_cons] at hk
        rcases hk with hk | hk
        · exact absurd hk.symm hq
        · exact hk
      obtain ⟨p, hf, hpk, hpm⟩ := ih hk'
      refine ⟨p, ?_, hpk, List.mem_cons_of_mem _ hpm⟩
      rw [List.find?_cons_of_neg _ (by simp [hq]), hf]

/-- Whatever the fuel and state, the Kahn loop's output has pairwise
distinct keys and contains only registered ids, provided the invariant
holds on entry. -/
theorem kahnLoop_inv (procs : List Process) :
    ∀ (fuel : Nat) (queue : List String) (deg : String → Int)
      (result : List ServiceID),
      StepInv procs (result.map ServiceID.key) (deg, queue) →
      (∀ id ∈ result, id ∈ procs.map (fun p => p.id)) →
      ((kahnLoop procs fuel queue deg result).map ServiceID.key).Nodup
      ∧ ∀ id ∈ kahnLoop procs fuel queue deg result,
          id ∈ procs.map (fun p => p.id) := by
  intro fuel
  induction fuel with
  | zero =>
    intro queue deg result hinv hres
    exact ⟨List.Nodup.of_append_left hinv.1, hres⟩
  | succ fuel ih =>
    intro queue deg result hinv hres
    cases queue with
    | nil =>
      simp only [kahnLoop]
      exact ⟨List.Nodup.of_append_left hinv.1, hres⟩
    | cons current rest =>
      have hcur : current ∈ keysOf procs :=
        hinv.2.2 current (List.mem_cons_self _ _)
      obtain ⟨p0, hfind, hp0k, hp0m⟩ := find_key procs current hcur
      simp only [kahnLoop, hfind]
      have hP2 : (result ++ [p0.id]).map ServiceID.key
          = result.map ServiceID.key ++ [current] := by
        rw [List.map_append, List.map_singleton, hp0k]
      have hinv2 : StepInv procs ((result ++ [p0.id]).map ServiceID.key)
          (deg, rest) := by
        rw [hP2]
        obtain ⟨hnd, hiff, hsub⟩ := hinv
        refine ⟨?_, ?_, ?_⟩
        · have hre : result.map ServiceID.key ++ [current] ++ rest
              = result.map ServiceID.key ++ current :: rest := by
            rw [List.append_assoc, List.singleton_append]
          dsimp only
          rw [hre]
          exact hnd
        · intro k hk
          have hiffk := hiff k hk
          dsimp only at hiffk ⊢
          rw [List.mem_append, List.mem_singleton]
          rw [List.mem_cons] at hiffk
          constructor
          · rintro (hpc | hr)
            · rcases hpc with hp | hc
              · exact hiffk.mp (Or.inl hp)
              · exact hiffk.mp (Or.inr (Or.inl hc))
            · exact hiffk.mp (Or.inr (Or.inr hr))
          · intro hle
            rcases hiffk.mpr hle with hp | hc | hr
            · exact Or.inl (Or.inl hp)
            · exact Or.inl (Or.inr hc)
            · exact Or.inr hr
        · intro k hk
          exact hsub k (List.mem_cons_of_mem _ hk)
      have hinv3 := foldl_dec1_stepInv procs
        ((result ++ [p0.id]).map ServiceID.key) current (depPairs procs)
        (deg, rest) (depPairs_fst procs) hinv2
      have hres2 : ∀ id ∈ result ++ [p0.id], id ∈ procs.map (fun p => p.id) := by
        intro id hid
        rcases List.mem_append.mp hid with h | h
        · exact hres id h
        · rw [List.mem_singleton] at h
          subst h
          exact List.mem_map_of_mem _ hp0m
      exact ih _ _ _ hinv3 hres2

/-- getDependencyOrder always returns a permutation of the full
registered service list: the fallback branch returns it verbatim, and a
complete Kahn result is key-distinct, registered, and of full length. -/
theorem getDependencyOrder_perm (m : Manager)
    (hkeys : (keysOf m.procs).Nodup) :
    List.Perm m.getDependencyOrder (m.procs.map (fun p => p.id)) := by
  simp only [Manager.getDependencyOrder]
  have hinv0 : StepInv m.procs (([] : List ServiceID).map ServiceID.key)
      (inDeg0 m.procs, initQueue m.procs) := by
    refine ⟨?_, ?_, ?_⟩
    · simp only [List.map_nil, List.nil_append, initQueue]
      exact List.Nodup.filter _ hkeys
    · intro k hk
      have hnn := inDeg0_nonneg m.procs k
      dsimp only
      simp only [List.map_nil, List.not_mem_nil, false_or, initQueue,
        List.mem_filter]
      constructor
      · rintro ⟨_, hz⟩
        rw [beq_iff_eq] at hz
        omega
      · intro hle
        refine ⟨hk, ?_⟩
        have hz : inDeg0 m.procs k = 0 := le_antisymm hle hnn
        simp [hz]
    · intro k hk
      exact (List.mem_filter.mp hk).1
  have hloop := kahnLoop_inv m.procs (m.procs.length + 1) (initQueue m.procs)
    (inDeg0 m.procs) [] hinv0 (by intro id h; simp at h)
  obtain ⟨hnd, hsub⟩ := hloop
  by_cases hlen :
      (kahnLoop m.procs (m.procs.length + 1) (initQueue m.procs)
          (inDeg0 m.procs) []).length
        ≠ (m.procs.map (fun p => p.id)).length
  · rw [if_pos hlen]
  · rw [if_neg hlen]
    push_neg at hlen
    have hnodup_res : (kahnLoop m.procs (m.procs.length + 1) (initQueue m.procs)
        (inDeg0 m.procs) []).Nodup := List.Nodup.of_map _ hnd
    have hsp := List.subperm_of_subset hnodup_res (fun x hx => hsub x hx)
    exact hsp.perm_of_length_le (le_of_eq hlen.symm)

/-- Start never changes the supervisor's identity. -/
theorem start_fst_id (p : Process) (c s : Bool) (n : Nat) :
    (p.start c s n).1.id = p.id := by
  unfold Process.start
  split
  · rfl
  · split
    · rfl
    · split <;> rfl

/-- Replacing one registry slot leaves lookups for every other key
unchanged. -/
theorem find_map_setSlot (procs : List Process) (p : Process) (k : String)
    (hne : k ≠ p.id.key) :
    (procs.map (fun q => if q.id.key = p.id.key then p else q)).find?
        (fun q => q.id.key == k)
      = procs.find? (fun q => q.id.key == k) := by
  induction procs with
  | nil => rfl
  | cons q t ih =>
    rw [List.map_cons]
    by_cases hq : q.id.key = p.id.key
    · rw [if_pos hq]
      have h1 : ¬ ((p.id.key == k) = true) := by
        simp only [beq_iff_eq]
        exact fun h => hne h.symm
      have h2 : ¬ ((q.id.key == k) = true) := by
        simp only [beq_iff_eq, hq]
        exact fun h => hne h.symm
      rw [List.find?_cons_of_neg (p := fun (q : Process) => q.id.key == k) _ h1,
        List.find?_cons_of_neg (p := fun (q : Process) => q.id.key == k) _ h2, ih]
    · rw [if_neg hq]
      by_cases hqk : (q.id.key == k) = true
      · rw [List.find?_cons_of_pos (p := fun (q : Process) => q.id.key == k) _ hqk,
          List.find?_cons_of_pos (p := fun (q : Process) => q.id.key == k) _ hqk]
      · rw [List.find?_cons_of_neg (p := fun (q : Process) => q.id.key == k) _ hqk,
          List.find?_cons_of_neg (p := fun (q : Process) => q.id.key == k) _ hqk, ih]

/-- Manager.Get after a slot write with a different key. -/
theorem setProc_get_ne (m : Manager) (p : Process) (id : ServiceID)
    (hne : id.key ≠ p.id.key) :
    (m.setProc p).get id = m.get id := by
  simp only [Manager.setProc, Manager.get]
  exact find_map_setSlot m.procs p id.key hne

/-- The StartAll loop issues Start once per id of the order, in order,
when the order has distinct keys and every ordered id is registered and
not Running. -/
theorem startAllLoop_trace (env : SpawnEnv) :
    ∀ (order : List ServiceID) (m : Manager) (trace : List ServiceID),
      (order.map ServiceID.key).Nodup →
      (∀ id ∈ order, ∃ p, m.get id = some p ∧ p.status ≠ Status.running) →
      (startAllLoop env order m trace).2 = trace ++ order := by
  intro order
  induction order with
  | nil =>
    intro m trace _ _
    simp [startAllLoop]
  | cons id rest ih =>
    intro m trace hnd hall
    obtain ⟨p, hget, hst⟩ := hall id (List.mem_cons_self _ _)
    have hpk : p.id.key = id.key := by
      have hget' : m.procs.find? (fun q => q.id.key == id.key) = some p := hget
      have hfs := List.find?_some hget'
      rwa [beq_iff_eq] at hfs
    have hnd' : (id.key :: rest.map ServiceID.key).Nodup := by
      simpa using hnd
    have hkey_notin : id.key ∉ rest.map ServiceID.key :=
      (List.nodup_cons.mp hnd').1
    simp only [startAllLoop, hget]
    rw [if_pos hst]
    have hall2 : ∀ id2 ∈ rest, ∃ p2,
        (m.setProc (p.start (env.cwdExists id) (env.spawnOk id) env.now).1).get
            id2 = some p2
          ∧ p2.status ≠ Status.running := by
      intro id2 hid2
      obtain ⟨p2, hget2, hst2⟩ := hall id2 (List.mem_cons_of_mem _ hid2)
      refine ⟨p2, ?_, hst2⟩
      rw [setProc_get_ne]
      · exact hget2
      · rw [start_fst_id, hpk]
        intro hcontra
        exact hkey_notin (hcontra ▸ List.mem_map_of_mem _ hid2)
    have hrec := ih _ (trace ++ [id]) (List.nodup_cons.mp hnd').2 hall2
    rw [hrec, List.append_assoc, List.singleton_append]

/-- Claim C3: for every registry (cyclic dependencies included),
getDependencyOrder returns each registered ServiceID exactly once (as a
permutation of the full list), and a StartAll from a fully non-Running
registry issues Start on every registered service exactly once. -/
theorem c3_startAll_exactly_once (m : Manager) (env : SpawnEnv)
    (hkeys : (keysOf m.procs).Nodup) :
    List.Perm m.getDependencyOrder (m.procs.map (fun p => p.id))
    ∧ ((∀ p ∈ m.procs, p.status ≠ Status.running) →
        List.Perm (m.startAll env).2 (m.procs.map (fun p => p.id))) := by
  have hperm := getDependencyOrder_perm m hkeys
  refine ⟨hperm, fun hstop => ?_⟩
  have hmapkeys : (m.procs.map (fun p => p.id)).map ServiceID.key
      = keysOf m.procs := by
    rw [List.map_map]
    rfl
  have horder_nodup : (m.getDependencyOrder.map ServiceID.key).Nodup := by
    have hpk : List.Perm (m.getDependencyOrder.map ServiceID.key)
        (keysOf m.procs) := by
      have hmk := hperm.map ServiceID.key
      rwa [hmapkeys] at hmk
    exact hpk.nodup_iff.mpr hkeys
  have hall : ∀ id ∈ m.getDependencyOrder,
      ∃ p, m.get id = some p ∧ p.status ≠ Status.running := by
    intro id hid
    have hidmem : id ∈ m.procs.map (fun p => p.id) := hperm.subset hid
    obtain ⟨q, hq, hqid⟩ := List.mem_map.mp hidmem
    have hkmem : id.key ∈ keysOf m.procs := by
      rw [← hqid]
      exact List.mem_map_of_mem _ hq
    obtain ⟨p, hf, hpk2, hpm⟩ := find_key m.procs id.key hkmem
    exact ⟨p, hf, hstop p hpm⟩
  have htrace := startAllLoop_trace env m.getDependencyOrder m []
    horder_nodup hall
  unfold Manager.startAll
  rw [htrace, List.nil_append]
  exact hperm

/-- Witness for c3_startAll_exactly_once at the chain registry (which
contains dependency edges, hence exercises the fallback path). -/
theorem c3_witness :
    (keysOf chainM.procs).Nodup
    ∧ List.Perm chainM.getDependencyOrder (chainM.procs.map (fun p => p.id))
    ∧ (∀ p ∈ chainM.procs, p.status ≠ Status.running)
    ∧ List.Perm (chainM.startAll envOK).2 (chainM.procs.map (fun p => p.id)) :=
  ⟨by decide, (c3_startAll_exactly_once chainM envOK (by decide)).1,
    by decide,
    (c3_startAll_exactly_once chainM envOK (by decide)).2 (by decide)⟩
